import Mathlib

/-!
# Mobile-OTP generator (package motp): embedding and verification

The Go package in motp.go is embedded shallowly:

* a Go string / byte slice is a list of bytes (GoString);
* the unsigned machine type uint is a natural number below 2 ^ 64, the signed
  type int64 an integer in [-2 ^ 63, 2 ^ 63); conversions and division wrap
  explicitly;
* a function returning (value, error) returns a pair whose second component is
  an optional error; a run-time panic is the error side of Except;
* the library calls (errors.New, fmt.Sprintf with the verbs %d%s%s, crypto/md5,
  encoding/hex) are modelled by what they compute: decimal formatting, the
  RFC 1321 digest, and the lowercase hexadecimal table.
-/

namespace Motp

/-! ## Go values -/

/-- Go string (and byte slice): a finite sequence of bytes. -/
abbrev GoString := List UInt8

/-- UTF-8 encoding of one character, as the Go compiler stores string literals. -/
def utf8EncodeChar (c : Char) : List UInt8 :=
  let v := c.toNat
  if v < 0x80 then [UInt8.ofNat v]
  else if v < 0x800 then [UInt8.ofNat (0xc0 + v / 64), UInt8.ofNat (0x80 + v % 64)]
  else if v < 0x10000 then
    [UInt8.ofNat (0xe0 + v / 4096), UInt8.ofNat (0x80 + v / 64 % 64), UInt8.ofNat (0x80 + v % 64)]
  else
    [UInt8.ofNat (0xf0 + v / 262144), UInt8.ofNat (0x80 + v / 4096 % 64),
     UInt8.ofNat (0x80 + v / 64 % 64), UInt8.ofNat (0x80 + v % 64)]

/-- Bytes of a string literal. -/
def str (s : String) : GoString := s.data.flatMap utf8EncodeChar

/-- Go error value; errors.New keeps the message text. -/
structure GoError where
  msg : String
deriving DecidableEq, Repr

/-- Go errors.New. -/
def errorsNew (text : String) : GoError := ⟨text⟩

/-- Run-time panics that the statements of Generate can raise. -/
inductive Panic where
  | divideByZero
  | sliceBoundsOutOfRange
deriving DecidableEq, Repr

deriving instance DecidableEq for Except

/-- Go conversion int64(x) of a uint value x: the same 64 bits read as two's complement. -/
def int64OfUint (x : Nat) : Int :=
  if x % 2 ^ 64 < 2 ^ 63 then ((x % 2 ^ 64 : Nat) : Int) else ((x % 2 ^ 64 : Nat) : Int) - 2 ^ 64

/-- Reduction of an integer into the int64 range (two's complement wrap-around). -/
def wrapInt64 (i : Int) : Int := (i + 2 ^ 63) % 2 ^ 64 - 2 ^ 63

/-- Go int64 division: panics on a zero divisor, truncates toward zero, wraps on overflow. -/
def int64Div (a b : Int) : Except Panic Int :=
  if b = 0 then .error .divideByZero else .ok (wrapInt64 (Int.tdiv a b))

/-- Go slice expression s[:hi]: panics when hi exceeds the length. -/
def sliceTo (s : GoString) (hi : Nat) : Except Panic GoString :=
  if hi ≤ s.length then .ok (s.take hi) else .error .sliceBoundsOutOfRange

/-! ## fmt.Sprintf with the verbs %d%s%s -/

/-- Decimal digits of n in front of acc, most significant first. -/
def decDigitsAux : Nat → Nat → GoString → GoString
  | 0, _, acc => acc
  | fuel + 1, n, acc =>
    if n < 10 then UInt8.ofNat (48 + n) :: acc
    else decDigitsAux fuel (n / 10) (UInt8.ofNat (48 + n % 10) :: acc)

/-- Decimal text of a natural number. -/
def formatUint (n : Nat) : GoString := decDigitsAux (n + 1) n []

/-- The verb %d on an integer: a minus sign for negative values, then the digits. -/
def formatInt (i : Int) : GoString :=
  if i < 0 then 45 :: formatUint i.natAbs else formatUint i.natAbs

/-- Go fmt.Sprintf("%d%s%s", d, s1, s2). -/
def Sprintf_d_s_s (d : Int) (s1 s2 : GoString) : GoString :=
  formatInt d ++ s1 ++ s2

/-- Decimal text of an integer, stated through the positional digits of Mathlib:
    the digits of the absolute value, most significant first, as ASCII characters;
    the single character 0 for zero; a leading minus sign for a negative value. -/
def decimalText (i : Int) : GoString :=
  let ds : GoString :=
    if i.natAbs = 0 then [48]
    else (Nat.digits 10 i.natAbs).reverse.map (fun d => UInt8.ofNat (48 + d))
  if i < 0 then 45 :: ds else ds

/-! ## crypto/md5 (RFC 1321) and encoding/hex -/

/-- Per-round left-rotation amounts. -/
def md5Shifts : List Nat :=
  [7, 12, 17, 22, 7, 12, 17, 22, 7, 12, 17, 22, 7, 12, 17, 22,
   5, 9, 14, 20, 5, 9, 14, 20, 5, 9, 14, 20, 5, 9, 14, 20,
   4, 11, 16, 23, 4, 11, 16, 23, 4, 11, 16, 23, 4, 11, 16, 23,
   6, 10, 15, 21, 6, 10, 15, 21, 6, 10, 15, 21, 6, 10, 15, 21]

/-- Per-round additive constants. -/
def md5Table : List Nat :=
  [0xd76aa478, 0xe8c7b756, 0x242070db, 0xc1bdceee,
   0xf57c0faf, 0x4787c62a, 0xa8304613, 0xfd469501,
   0x698098d8, 0x8b44f7af, 0xffff5bb1, 0x895cd7be,
   0x6b901122, 0xfd987193, 0xa679438e, 0x49b40821,
   0xf61e2562, 0xc040b340, 0x265e5a51, 0xe9b6c7aa,
   0xd62f105d, 0x02441453, 0xd8a1e681, 0xe7d3fbc8,
   0x21e1cde6, 0xc33707d6, 0xf4d50d87, 0x455a14ed,
   0xa9e3e905, 0xfcefa3f8, 0x676f02d9, 0x8d2a4c8a,
   0xfffa3942, 0x8771f681, 0x6d9d6122, 0xfde5380c,
   0xa4beea44, 0x4bdecfa9, 0xf6bb4b60, 0xbebfbc70,
   0x289b7ec6, 0xeaa127fa, 0xd4ef3085, 0x04881d05,
   0xd9d4d039, 0xe6db99e5, 0x1fa27cf8, 0xc4ac5665,
   0xf4292244, 0x432aff97, 0xab9423a7, 0xfc93a039,
   0x655b59c3, 0x8f0ccc92, 0xffeff47d, 0x85845dd1,
   0x6fa87e4f, 0xfe2ce6e0, 0xa3014314, 0x4e0811a1,
   0xf7537e82, 0xbd3af235, 0x2ad7d2bb, 0xeb86d391]

/-- Left rotation of a 32-bit word. -/
def rotl32 (x s : Nat) : Nat :=
  ((x <<< s) ||| (x >>> (32 - s))) % 2 ^ 32

/-- Bitwise complement of a 32-bit word. -/
def not32 (x : Nat) : Nat := x ^^^ 0xffffffff

/-- Little-endian 32-bit word made of (up to) four bytes. -/
def leWord (bs : List Nat) : Nat :=
  bs.getD 0 0 + bs.getD 1 0 * 2 ^ 8 + bs.getD 2 0 * 2 ^ 16 + bs.getD 3 0 * 2 ^ 24

/-- The n low bytes of w, least significant first. -/
def leBytes (n w : Nat) : List Nat :=
  (List.range n).map (fun i => (w >>> (8 * i)) % 256)

/-- The four chaining words of the digest. -/
structure MD5State where
  a : Nat
  b : Nat
  c : Nat
  d : Nat
deriving DecidableEq, Repr

/-- Initial chaining value. -/
def md5Init : MD5State := ⟨0x67452301, 0xefcdab89, 0x98badcfe, 0x10325476⟩

/-- One of the 64 operations on a block whose sixteen words are m. -/
def md5Step (m : List Nat) (st : MD5State) (i : Nat) : MD5State :=
  let f :=
    if i < 16 then (st.b &&& st.c) ||| (not32 st.b &&& st.d)
    else if i < 32 then (st.d &&& st.b) ||| (not32 st.d &&& st.c)
    else if i < 48 then st.b ^^^ st.c ^^^ st.d
    else st.c ^^^ (st.b ||| not32 st.d)
  let g :=
    if i < 16 then i
    else if i < 32 then (5 * i + 1) % 16
    else if i < 48 then (3 * i + 5) % 16
    else (7 * i) % 16
  let t := (f + st.a + md5Table.getD i 0 + m.getD g 0) % 2 ^ 32
  ⟨st.d, (st.b + rotl32 t (md5Shifts.getD i 0)) % 2 ^ 32, st.b, st.c⟩

/-- Compression of one 64-byte block into the chaining value. -/
def md5Block (st : MD5State) (block : List Nat) : MD5State :=
  let m := (List.range 16).map (fun j => leWord ((block.drop (4 * j)).take 4))
  let r := (List.range 64).foldl (md5Step m) st
  ⟨(st.a + r.a) % 2 ^ 32, (st.b + r.b) % 2 ^ 32, (st.c + r.c) % 2 ^ 32, (st.d + r.d) % 2 ^ 32⟩

/-- Message padding: the byte 0x80, zero bytes up to 56 modulo 64, the bit length on 8 bytes. -/
def md5Pad (msg : List Nat) : List Nat :=
  msg ++ [0x80] ++ List.replicate ((55 + 64 - msg.length % 64) % 64) 0
    ++ leBytes 8 ((msg.length * 8) % 2 ^ 64)

/-- The 16-byte MD5 digest of a byte string. -/
def md5Sum (data : GoString) : GoString :=
  let p := md5Pad (data.map UInt8.toNat)
  let st := (List.range (p.length / 64)).foldl
    (fun st k => md5Block st ((p.drop (64 * k)).take 64)) md5Init
  (leBytes 4 st.a ++ leBytes 4 st.b ++ leBytes 4 st.c ++ leBytes 4 st.d).map UInt8.ofNat

/-- Running hash returned by md5.New: the bytes written so far. -/
structure Md5Digest where
  written : GoString
deriving DecidableEq, Repr

/-- Go md5.New. -/
def md5New : Md5Digest := ⟨[]⟩

/-- Method Write of the running hash: appends the data and reports its length; the error is
    always nil (the interface hash.Hash documents that Write never returns an error). -/
def Md5Digest.Write (h : Md5Digest) (p : GoString) : Md5Digest × Nat × Option GoError :=
  (⟨h.written ++ p⟩, p.length, none)

/-- Method Sum of the running hash: appends the digest of what was written to b. -/
def Md5Digest.Sum (h : Md5Digest) (b : GoString) : GoString :=
  b ++ md5Sum h.written

/-- The table of encoding/hex: the characters 0123456789abcdef. -/
def hextable : GoString :=
  [48, 49, 50, 51, 52, 53, 54, 55, 56, 57, 97, 98, 99, 100, 101, 102]

/-- Go hex.EncodeToString: two table characters per byte, high nibble first. -/
def hexEncodeToString (src : GoString) : GoString :=
  src.flatMap (fun v => [hextable.getD (v.toNat >>> 4) 0, hextable.getD (v.toNat &&& 0x0f) 0])

/-! ## motp.go -/

/-- The struct MOTP: secret key, PIN, period in seconds, number of output characters. -/
structure MOTP where
  secret : GoString
  pin : GoString
  period : Nat
  digits : Nat
deriving DecidableEq, Repr

/-- The type MOTPOption, func(*MOTP) error: the generator after the call, and the error. -/
abbrev MOTPOption := MOTP → MOTP × Option GoError

/-- WithPeriod configures the period (in seconds) for the MOTP generator. -/
def WithPeriod (period : Nat) : MOTPOption := fun m =>
  if period < 1 then (m, some (errorsNew "period must be positive"))
  else ({ m with period := period }, none)

/-- WithDigits configures the number of digits in the MOTP code. -/
def WithDigits (digits : Nat) : MOTPOption := fun m =>
  if digits < 1 ∨ digits > 32 then (m, some (errorsNew "digits must be in the range 1-32"))
  else ({ m with digits := digits }, none)

/-- The loop of New over the options: stops with (nil, err) at the first error. -/
def applyOptions : MOTP → List MOTPOption → Option MOTP × Option GoError
  | m, [] => (some m, none)
  | m, option :: rest =>
    match option m with
    | (_, some err) => (none, some err)
    | (m1, none) => applyOptions m1 rest

/-- New creates a generator with period 10 and digits 6, then applies the options in order. -/
def New (secret pin : GoString) (options : List MOTPOption) : Option MOTP × Option GoError :=
  applyOptions { secret := secret, pin := pin, period := 10, digits := 6 } options

/-- The time-step counter and the hash input of Generate (the statements between the
    timestamp check and the digest). -/
def hashInput (m : MOTP) (unixSeconds : Int) : Except Panic GoString := do
  let epochPeriod ← int64Div unixSeconds (int64OfUint m.period)
  pure (Sprintf_d_s_s epochPeriod m.secret m.pin)

/-- Generate: the code for a Unix timestamp, with its error; a panic is the error of Except. -/
def Generate (m : MOTP) (unixSeconds : Int) : Except Panic (GoString × Option GoError) :=
  if unixSeconds < 0 then
    pure ([], some (errorsNew "unixSeconds must be non-negative"))
  else do
    let hashInput ← hashInput m unixSeconds
    let (hasher, _, err) := md5New.Write hashInput
    match err with
    | some e => pure ([], some e)
    | none =>
      let hashBytes := hasher.Sum []
      let hashStr := hexEncodeToString hashBytes
      let code ← sliceTo hashStr m.digits
      pure (code, none)

/-- GenerateCurrent, with the reading of the clock (whole seconds since the epoch) as input. -/
def GenerateCurrent (m : MOTP) (now : Int) : Except Panic (GoString × Option GoError) :=
  let unixSeconds := now
  Generate m unixSeconds

/-- The argument of an option built by WithPeriod or by WithDigits. -/
inductive OptionArg where
  | period (p : Nat)
  | digits (d : Nat)
deriving DecidableEq, Repr

/-- The option an argument stands for. -/
def OptionArg.build : OptionArg → MOTPOption
  | .period p => WithPeriod p
  | .digits d => WithDigits d

/-- The argument is a value of the 64-bit type uint. -/
def OptionArg.isUint : OptionArg → Prop
  | .period p => p < 2 ^ 64
  | .digits d => d < 2 ^ 64

/-- The argument is one its option rejects. -/
def OptionArg.invalid : OptionArg → Prop
  | .period p => p < 1
  | .digits d => d < 1 ∨ d > 32

instance : DecidablePred OptionArg.isUint := fun a => by
  cases a <;> unfold OptionArg.isUint <;> infer_instance

instance : DecidablePred OptionArg.invalid := fun a => by
  cases a <;> unfold OptionArg.invalid <;> infer_instance

/-- Generate as a method on the pointer receiver, with the generator behind the pointer
    passed explicitly: the results, and beside them the generator after the call (the body
    assigns to no field of the receiver). -/
def GenerateOnReceiver (m : MOTP) (unixSeconds : Int) :
    Except Panic ((GoString × Option GoError) × MOTP) :=
  if unixSeconds < 0 then
    pure (([], some (errorsNew "unixSeconds must be non-negative")), m)
  else do
    let epochPeriod ← int64Div unixSeconds (int64OfUint m.period)
    let hashInput := Sprintf_d_s_s epochPeriod m.secret m.pin
    let (hasher, _, err) := md5New.Write hashInput
    match err with
    | some e => pure (([], some e), m)
    | none =>
      let hashBytes := hasher.Sum []
      let hashStr := hexEncodeToString hashBytes
      let code ← sliceTo hashStr m.digits
      pure ((code, none), m)

/-- The number a decimal text denotes: the digits read from the left, most significant
    first. -/
def parseDecimal (bs : GoString) : Nat :=
  bs.foldl (fun acc c => 10 * acc + (c.toNat - 48)) 0

/-- The argument of an option built by WithPeriod, none for the other options. -/
def OptionArg.periodArg : OptionArg → Option Nat
  | .period p => some p
  | .digits _ => none

/-- The argument of an option built by WithDigits, none for the other options. -/
def OptionArg.digitsArg : OptionArg → Option Nat
  | .period _ => none
  | .digits d => some d

/-- The argument of the last WithPeriod of the list, or 10 when the list has none. -/
def lastPeriodOr10 (args : List OptionArg) : Nat :=
  ((args.filterMap OptionArg.periodArg).getLast?).getD 10

/-- The argument of the last WithDigits of the list, or 6 when the list has none. -/
def lastDigitsOr6 (args : List OptionArg) : Nat :=
  ((args.filterMap OptionArg.digitsArg).getLast?).getD 6

/-- A lowercase hexadecimal digit: one of the characters 0-9 and a-f. -/
def isLowerHexDigit (c : UInt8) : Prop :=
  (48 ≤ c.toNat ∧ c.toNat ≤ 57) ∨ (97 ≤ c.toNat ∧ c.toNat ≤ 102)

instance : DecidablePred isLowerHexDigit := fun c => by
  unfold isLowerHexDigit; infer_instance

/-! ## Sanity checks of the embedding against published vectors -/

theorem md5_empty :
    hexEncodeToString (md5Sum (str "")) = str "d41d8cd98f00b204e9800998ecf8427e" := by
  decide!

theorem md5_abc :
    hexEncodeToString (md5Sum (str "abc")) = str "900150983cd24fb0d6963f7d28e17f72" := by
  decide!

theorem formatInt_samples :
    formatInt 0 = str "0" ∧ formatInt 162509760 = str "162509760" ∧ formatInt (-5) = str "-5" ∧
      formatInt 9223372036854775807 = str "9223372036854775807" := by
  decide!

theorem generate_known_vector :
    Generate ⟨str "testsecret", str "1234", 10, 6⟩ 1625097600 = .ok (str "23fb79", none) := by
  decide!

/-! ## Lemmas on the library models -/

theorem leBytes_length (n w : Nat) : (leBytes n w).length = n := by
  simp [leBytes]

theorem md5Sum_length (data : GoString) : (md5Sum data).length = 16 := by
  simp [md5Sum, leBytes_length]

theorem hexEncodeToString_length (src : GoString) :
    (hexEncodeToString src).length = 2 * src.length := by
  induction src with
  | nil => rfl
  | cons b bs ih =>
    have h : hexEncodeToString (b :: bs) =
        [hextable.getD (b.toNat >>> 4) 0, hextable.getD (b.toNat &&& 0x0f) 0]
          ++ hexEncodeToString bs := by
      simp [hexEncodeToString]
    rw [h, List.length_append, ih]
    simp
    omega

theorem hexDigest_length (data : GoString) :
    (hexEncodeToString (md5Sum data)).length = 32 := by
  rw [hexEncodeToString_length, md5Sum_length]

theorem int64OfUint_of_lt (p : Nat) (h : p < 2 ^ 63) : int64OfUint p = (p : Int) := by
  unfold int64OfUint
  have h1 : p % 2 ^ 64 = p := Nat.mod_eq_of_lt (by omega)
  rw [h1, if_pos h]

theorem int64OfUint_ne_zero (p : Nat) (h1 : 1 ≤ p) (h2 : p < 2 ^ 64) : int64OfUint p ≠ 0 := by
  unfold int64OfUint
  have h3 : p % 2 ^ 64 = p := Nat.mod_eq_of_lt h2
  rw [h3]
  split <;> omega

theorem decDigitsAux_eq (fuel : Nat) : ∀ (n : Nat) (acc : GoString), n < fuel →
    decDigitsAux fuel n acc =
      (if n = 0 then [48]
        else (Nat.digits 10 n).reverse.map (fun d => UInt8.ofNat (48 + d))) ++ acc := by
  induction fuel with
  | zero => intro n acc h; omega
  | succ k ih =>
    intro n acc h
    unfold decDigitsAux
    by_cases h10 : n < 10
    · rw [if_pos h10]
      by_cases h0 : n = 0
      · subst h0; rfl
      · rw [if_neg h0, Nat.digits_of_lt 10 n h0 h10]
        rfl
    · rw [if_neg h10]
      have hn : n ≠ 0 := by omega
      have hq : n / 10 ≠ 0 := by omega
      rw [ih (n / 10) _ (by omega), if_neg hn, if_neg hq,
        Nat.digits_def' (by norm_num : 1 < 10) (by omega : 0 < n)]
      simp

theorem formatInt_eq_decimalText (i : Int) : formatInt i = decimalText i := by
  unfold formatInt decimalText formatUint
  rw [decDigitsAux_eq _ _ _ (Nat.lt_succ_self _)]
  simp

/-! ## Lemmas on Generate -/

theorem wrapInt64_of_range (i : Int) (h1 : -2 ^ 63 ≤ i) (h2 : i < 2 ^ 63) : wrapInt64 i = i := by
  unfold wrapInt64
  omega

theorem tdiv_bounds (u d : Int) (h0 : 0 ≤ u) : -u ≤ Int.tdiv u d ∧ Int.tdiv u d ≤ u := by
  rcases lt_trichotomy d 0 with hd | hd | hd
  · have h1 : Int.tdiv u d = -(u / (-d)) := by
      rw [← Int.tdiv_eq_ediv h0 (by omega), ← Int.tdiv_neg, neg_neg]
    have h2 : 0 ≤ u / (-d) := Int.ediv_nonneg h0 (by omega)
    have h3 : u / (-d) ≤ u := Int.ediv_le_self _ h0
    omega
  · subst hd
    simp [h0]
  · rw [Int.tdiv_eq_ediv h0 (by omega)]
    have h2 : 0 ≤ u / d := Int.ediv_nonneg h0 (by omega)
    have h3 : u / d ≤ u := Int.ediv_le_self _ h0
    omega

theorem hashInput_eq (m : MOTP) (u : Int) (hp : int64OfUint m.period ≠ 0) :
    hashInput m u =
      .ok (formatInt (wrapInt64 (Int.tdiv u (int64OfUint m.period))) ++ m.secret ++ m.pin) := by
  simp [hashInput, int64Div, hp, Sprintf_d_s_s, bind, Except.bind, pure, Except.pure]

theorem Generate_nonneg (m : MOTP) (u : Int) (h0 : 0 ≤ u) (hp : int64OfUint m.period ≠ 0) :
    Generate m u =
      (sliceTo (hexEncodeToString (md5Sum
        (formatInt (wrapInt64 (Int.tdiv u (int64OfUint m.period))) ++ m.secret ++ m.pin)))
        m.digits >>= fun code => pure (code, none)) := by
  unfold Generate
  rw [if_neg (by omega), hashInput_eq m u hp]
  simp [Md5Digest.Write, Md5Digest.Sum, md5New, bind, Except.bind]

theorem Generate_ok (m : MOTP) (u : Int) (h0 : 0 ≤ u) (hp : int64OfUint m.period ≠ 0)
    (hd : m.digits ≤ 32) :
    Generate m u =
      .ok ((hexEncodeToString (md5Sum
        (formatInt (wrapInt64 (Int.tdiv u (int64OfUint m.period))) ++ m.secret ++ m.pin))).take
        m.digits, none) := by
  rw [Generate_nonneg m u h0 hp]
  simp [sliceTo, hexDigest_length, hd, bind, Except.bind, pure, Except.pure]

theorem Generate_neg (m : MOTP) (u : Int) (h : u < 0) :
    Generate m u = .ok ([], some (errorsNew "unixSeconds must be non-negative")) := by
  unfold Generate
  rw [if_pos h]
  rfl

/-! ## Lemmas on New -/

theorem build_of_invalid (a : OptionArg) (m : MOTP) (h : a.invalid) :
    ∃ e, a.build m = (m, some e) := by
  cases a with
  | period p =>
    have hp : p < 1 := h
    exact ⟨errorsNew "period must be positive",
      by simp only [OptionArg.build, WithPeriod, if_pos hp]⟩
  | digits d =>
    have hd : d < 1 ∨ d > 32 := h
    exact ⟨errorsNew "digits must be in the range 1-32",
      by simp only [OptionArg.build, WithDigits, if_pos hd]⟩

theorem build_of_valid (a : OptionArg) (m : MOTP) (h : ¬ a.invalid) :
    ∃ m1, a.build m = (m1, none) ∧ m1.secret = m.secret ∧ m1.pin = m.pin ∧
      (a.isUint → (1 ≤ m.period ∧ m.period < 2 ^ 64) → (1 ≤ m1.period ∧ m1.period < 2 ^ 64)) ∧
      ((1 ≤ m.digits ∧ m.digits ≤ 32) → (1 ≤ m1.digits ∧ m1.digits ≤ 32)) := by
  cases a with
  | period p =>
    have hp : ¬ p < 1 := h
    refine ⟨{ m with period := p }, by simp only [OptionArg.build, WithPeriod, if_neg hp],
      rfl, rfl, ?_, fun hd => hd⟩
    intro hu _
    have hu1 : p < 2 ^ 64 := hu
    show 1 ≤ p ∧ p < 2 ^ 64
    exact ⟨by omega, hu1⟩
  | digits d =>
    have hd : ¬ (d < 1 ∨ d > 32) := h
    refine ⟨{ m with digits := d }, by simp only [OptionArg.build, WithDigits, if_neg hd],
      rfl, rfl, fun _ hp => hp, ?_⟩
    intro _
    show 1 ≤ d ∧ d ≤ 32
    omega

theorem applyOptions_cases (args : List OptionArg) : ∀ m : MOTP,
    ((∃ a ∈ args, a.invalid) ∧ ∃ e, applyOptions m (args.map OptionArg.build) = (none, some e)) ∨
    ((∀ a ∈ args, ¬ a.invalid) ∧ ∃ m1, applyOptions m (args.map OptionArg.build) = (some m1, none) ∧
      m1.secret = m.secret ∧ m1.pin = m.pin ∧
      ((∀ a ∈ args, a.isUint) → (1 ≤ m.period ∧ m.period < 2 ^ 64) →
        (1 ≤ m1.period ∧ m1.period < 2 ^ 64)) ∧
      ((1 ≤ m.digits ∧ m.digits ≤ 32) → (1 ≤ m1.digits ∧ m1.digits ≤ 32))) := by
  induction args with
  | nil =>
    intro m
    exact Or.inr ⟨by simp, m, rfl, rfl, rfl, fun _ h => h, fun h => h⟩
  | cons a rest ih =>
    intro m
    by_cases ha : a.invalid
    · obtain ⟨e, he⟩ := build_of_invalid a m ha
      refine Or.inl ⟨⟨a, by simp, ha⟩, e, ?_⟩
      simp only [List.map_cons, applyOptions, he]
    · obtain ⟨m1, hm1, hs, hp, hper, hdig⟩ := build_of_valid a m ha
      have hstep : applyOptions m ((a :: rest).map OptionArg.build) =
          applyOptions m1 (rest.map OptionArg.build) := by
        simp only [List.map_cons, applyOptions, hm1]
      rw [hstep]
      rcases ih m1 with ⟨⟨b, hb, hbi⟩, e, he⟩ | ⟨hall, m2, hm2, hs2, hp2, hper2, hdig2⟩
      · exact Or.inl ⟨⟨b, by simp [hb], hbi⟩, e, he⟩
      · refine Or.inr ⟨?_, m2, hm2, hs2.trans hs, hp2.trans hp, ?_, fun h => hdig2 (hdig h)⟩
        · intro b hb
          rcases List.mem_cons.mp hb with rfl | hb1
          · exact ha
          · exact hall b hb1
        · intro hu h
          exact hper2 (fun b hb => hu b (by simp [hb])) (hper (hu a (by simp)) h)

theorem New_fails_iff (secret pin : GoString) (args : List OptionArg) :
    (New secret pin (args.map OptionArg.build)).2.isSome ↔ ∃ a ∈ args, a.invalid := by
  unfold New
  rcases applyOptions_cases args ⟨secret, pin, 10, 6⟩ with ⟨hex, e, he⟩ | ⟨hall, m1, hm1, _⟩
  · rw [he]
    simp only [Option.isSome_some, true_iff]
    exact hex
  · rw [hm1]
    simp only [Option.isSome_none, Bool.false_eq_true, false_iff]
    rintro ⟨a, ha, hi⟩
    exact hall a ha hi

theorem New_valid (secret pin : GoString) (args : List OptionArg) (m : MOTP)
    (hu : ∀ a ∈ args, a.isUint)
    (hN : New secret pin (args.map OptionArg.build) = (some m, none)) :
    m.secret = secret ∧ m.pin = pin ∧ 1 ≤ m.period ∧ m.period < 2 ^ 64 ∧
      1 ≤ m.digits ∧ m.digits ≤ 32 := by
  unfold New at hN
  rcases applyOptions_cases args ⟨secret, pin, 10, 6⟩ with ⟨_, e, he⟩ | ⟨_, m1, hm1, hs, hp, hper, hdig⟩
  · rw [he] at hN
    simp at hN
  · rw [hm1] at hN
    have hmm : m1 = m := by simpa using hN
    subst hmm
    have h1 := hper hu ⟨by show 1 ≤ 10; decide, by show 10 < 2 ^ 64; decide⟩
    have h2 := hdig ⟨by show 1 ≤ 6; decide, by show 6 ≤ 32; decide⟩
    exact ⟨hs, hp, h1.1, h1.2, h2.1, h2.2⟩

/-! ## The time-step counter for periods that fit int64 -/

theorem counter_eq_floor (p : Nat) (u : Int) (hp1 : 1 ≤ p) (hp2 : p < 2 ^ 63)
    (h0 : 0 ≤ u) (h63 : u < 2 ^ 63) :
    int64Div u (int64OfUint p) = .ok (Int.fdiv u p) ∧ 0 ≤ Int.fdiv u p := by
  have hpos : (0 : Int) ≤ (p : Int) := Int.ofNat_nonneg p
  have hne : (p : Int) ≠ 0 := by omega
  have hb := tdiv_bounds u p h0
  have ht : Int.tdiv u p = u / p := Int.tdiv_eq_ediv h0 hpos
  have hf : Int.fdiv u p = u / p := Int.fdiv_eq_ediv u hpos
  have hq : 0 ≤ u / (p : Int) := Int.ediv_nonneg h0 hpos
  rw [int64OfUint_of_lt p hp2, hf]
  refine ⟨?_, hq⟩
  unfold int64Div
  rw [if_neg hne, ht, wrapInt64_of_range _ (by omega) (by omega)]

theorem Generate_same_step (m : MOTP) (t1 t2 : Int) (hp1 : 1 ≤ m.period)
    (hp2 : m.period < 2 ^ 63) (h1 : 0 ≤ t1) (h2 : 0 ≤ t2)
    (hstep : Int.fdiv t1 m.period = Int.fdiv t2 m.period) :
    Generate m t1 = Generate m t2 := by
  have hpos : (0 : Int) ≤ (m.period : Int) := Int.ofNat_nonneg _
  have hne : int64OfUint m.period ≠ 0 := int64OfUint_ne_zero _ hp1 (by omega)
  rw [Generate_nonneg m t1 h1 hne, Generate_nonneg m t2 h2 hne, int64OfUint_of_lt _ hp2,
    Int.tdiv_eq_ediv h1 hpos, Int.tdiv_eq_ediv h2 hpos, ← Int.fdiv_eq_ediv t1 hpos,
    ← Int.fdiv_eq_ediv t2 hpos, hstep]

/-! ## Lemmas on the receiver, the decimal text, the hexadecimal text and the last option -/

theorem GenerateOnReceiver_eq (m : MOTP) (u : Int) :
    GenerateOnReceiver m u = (Generate m u >>= fun r => pure (r, m)) := by
  unfold GenerateOnReceiver Generate hashInput
  by_cases h : u < 0
  · rw [if_pos h, if_pos h]
    rfl
  · rw [if_neg h, if_neg h]
    cases hd : int64Div u (int64OfUint m.period) with
    | error e => rfl
    | ok c =>
      simp only [bind, Except.bind, pure, Except.pure, Md5Digest.Write]
      cases hs : sliceTo (hexEncodeToString
          ((Md5Digest.mk (md5New.written ++ Sprintf_d_s_s c m.secret m.pin)).Sum []))
          m.digits with
      | error e => rfl
      | ok code => rfl

theorem toNat_ofNat_digit (n : Nat) (h : n < 10) : (UInt8.ofNat (48 + n)).toNat = 48 + n := by
  simp [UInt8.toNat, UInt8.ofNat, Fin.ofNat, UInt8.size]
  omega

theorem parseDecimal_aux (fuel : Nat) : ∀ (n : Nat) (acc : GoString), n < fuel →
    (decDigitsAux fuel n acc).foldl (fun a c => 10 * a + (c.toNat - 48)) 0 =
      acc.foldl (fun a c => 10 * a + (c.toNat - 48)) n := by
  induction fuel with
  | zero => intro n acc h; omega
  | succ k ih =>
    intro n acc h
    unfold decDigitsAux
    by_cases h10 : n < 10
    · rw [if_pos h10, List.foldl_cons, toNat_ofNat_digit n h10]
      congr 1
      omega
    · rw [if_neg h10, ih (n / 10) _ (by omega), List.foldl_cons,
        toNat_ofNat_digit (n % 10) (by omega)]
      congr 1
      omega

theorem parseDecimal_formatUint (n : Nat) : parseDecimal (formatUint n) = n := by
  unfold parseDecimal formatUint
  rw [parseDecimal_aux _ _ _ (Nat.lt_succ_self n)]
  rfl

theorem formatInt_natCast (n : Nat) : formatInt (n : Int) = formatUint n := by
  unfold formatInt
  rw [if_neg (by omega)]
  simp

theorem formatInt_natCast_inj (a b : Nat) (h : formatInt (a : Int) = formatInt (b : Int)) :
    a = b := by
  rw [formatInt_natCast, formatInt_natCast] at h
  have := congrArg parseDecimal h
  rwa [parseDecimal_formatUint, parseDecimal_formatUint] at this

theorem Sprintf_pin_inj (c : Int) (s p1 p2 : GoString) :
    Sprintf_d_s_s c s p1 = Sprintf_d_s_s c s p2 ↔ p1 = p2 := by
  unfold Sprintf_d_s_s
  constructor
  · intro h
    exact List.append_cancel_left h
  · intro h
    rw [h]

theorem Sprintf_secret_inj (c : Int) (s1 s2 p : GoString) :
    Sprintf_d_s_s c s1 p = Sprintf_d_s_s c s2 p ↔ s1 = s2 := by
  unfold Sprintf_d_s_s
  constructor
  · intro h
    exact List.append_cancel_left (List.append_cancel_right h)
  · intro h
    rw [h]

theorem Sprintf_counter_inj (c1 c2 : Nat) (s p : GoString) :
    Sprintf_d_s_s (c1 : Int) s p = Sprintf_d_s_s (c2 : Int) s p ↔ c1 = c2 := by
  unfold Sprintf_d_s_s
  constructor
  · intro h
    exact formatInt_natCast_inj c1 c2 (List.append_cancel_right (List.append_cancel_right h))
  · intro h
    rw [h]

theorem hextable_getD_lower (n : Nat) (h : n < 16) : isLowerHexDigit (hextable.getD n 0) := by
  interval_cases n <;> decide

theorem hexEncodeToString_lower (src : GoString) :
    ∀ c ∈ hexEncodeToString src, isLowerHexDigit c := by
  intro c hc
  unfold hexEncodeToString at hc
  rw [List.mem_flatMap] at hc
  obtain ⟨v, _, hv⟩ := hc
  have hlt : v.toNat < 256 := v.val.isLt
  have h1 : v.toNat >>> 4 < 16 := by
    rw [Nat.shiftRight_eq_div_pow]
    omega
  have h2 : v.toNat &&& 0x0f < 16 := Nat.lt_succ_of_le Nat.and_le_right
  simp only [List.mem_cons, List.mem_singleton, List.mem_nil_iff, or_false] at hv
  rcases hv with rfl | rfl
  · exact hextable_getD_lower _ h1
  · exact hextable_getD_lower _ h2

theorem getLast_getD_cons (a d : Nat) (l : List Nat) :
    ((a :: l).getLast?).getD d = (l.getLast?).getD a := by
  rw [List.getLast?_cons]
  rfl

theorem applyOptions_last (args : List OptionArg) : ∀ m : MOTP,
    (∀ a ∈ args, ¬ a.invalid) →
    applyOptions m (args.map OptionArg.build) =
      (some ⟨m.secret, m.pin,
        ((args.filterMap OptionArg.periodArg).getLast?).getD m.period,
        ((args.filterMap OptionArg.digitsArg).getLast?).getD m.digits⟩, none) := by
  induction args with
  | nil => intro m _; rfl
  | cons a rest ih =>
    intro m hall
    have hrest : ∀ b ∈ rest, ¬ b.invalid := fun b hb => hall b (by simp [hb])
    have ha : ¬ a.invalid := hall a (by simp)
    cases a with
    | period p =>
      have hp : ¬ p < 1 := ha
      have hstep : applyOptions m ((OptionArg.period p :: rest).map OptionArg.build) =
          applyOptions { m with period := p } (rest.map OptionArg.build) := by
        simp only [List.map_cons, applyOptions, OptionArg.build, WithPeriod, if_neg hp]
      rw [hstep, ih _ hrest]
      simp only [List.filterMap_cons, OptionArg.periodArg, OptionArg.digitsArg,
        getLast_getD_cons]
    | digits d =>
      have hd : ¬ (d < 1 ∨ d > 32) := ha
      have hstep : applyOptions m ((OptionArg.digits d :: rest).map OptionArg.build) =
          applyOptions { m with digits := d } (rest.map OptionArg.build) := by
        simp only [List.map_cons, applyOptions, OptionArg.build, WithDigits, if_neg hd]
      rw [hstep, ih _ hrest]
      simp only [List.filterMap_cons, OptionArg.periodArg, OptionArg.digitsArg,
        getLast_getD_cons]

theorem Sprintf_concat (c : Int) (s1 p1 s2 p2 : GoString) (h : s1 ++ p1 = s2 ++ p2) :
    Sprintf_d_s_s c s1 p1 = Sprintf_d_s_s c s2 p2 := by
  unfold Sprintf_d_s_s
  rw [List.append_assoc, List.append_assoc, h]

theorem Generate_concat (s1 p1 s2 p2 : GoString) (per d : Nat) (u : Int)
    (h : s1 ++ p1 = s2 ++ p2) :
    Generate ⟨s1, p1, per, d⟩ u = Generate ⟨s2, p2, per, d⟩ u := by
  unfold Generate hashInput
  simp only [Sprintf_concat _ s1 p1 s2 p2 h]

theorem counter_step (p : Nat) (u : Int) (hp1 : 1 ≤ p) (h0 : 0 ≤ u)
    (hmax : u + p ≤ 2 ^ 63 - 1) :
    int64Div u (int64OfUint p) = .ok (Int.fdiv u p) ∧
      int64Div (u + p) (int64OfUint p) = .ok (Int.fdiv u p + 1) ∧ 0 ≤ Int.fdiv u p := by
  have hpos : (0 : Int) ≤ (p : Int) := Int.ofNat_nonneg p
  have hp2 : p < 2 ^ 63 := by omega
  have hne : (p : Int) ≠ 0 := by omega
  obtain ⟨ha, hb⟩ := counter_eq_floor p u hp1 hp2 h0 (by omega)
  obtain ⟨hc, _⟩ := counter_eq_floor p (u + p) hp1 hp2 (by omega) (by omega)
  refine ⟨ha, ?_, hb⟩
  rw [hc, Int.fdiv_eq_ediv _ hpos, Int.fdiv_eq_ediv _ hpos]
  have h1 : (u + (p : Int)) / (p : Int) = u / (p : Int) + 1 := by
    have := Int.add_mul_ediv_right u 1 hne
    rwa [one_mul] at this
  rw [h1]

theorem counter_mono (p : Nat) (u1 u2 : Int) (hp1 : 1 ≤ p) (hp2 : p < 2 ^ 63)
    (h0 : 0 ≤ u1) (h12 : u1 ≤ u2) (hmax : u2 ≤ 2 ^ 63 - 1) :
    int64Div u1 (int64OfUint p) = .ok (Int.fdiv u1 p) ∧
      int64Div u2 (int64OfUint p) = .ok (Int.fdiv u2 p) ∧ Int.fdiv u1 p ≤ Int.fdiv u2 p := by
  have hpos : (0 : Int) ≤ (p : Int) := Int.ofNat_nonneg p
  obtain ⟨ha, _⟩ := counter_eq_floor p u1 hp1 hp2 h0 (by omega)
  obtain ⟨hb, _⟩ := counter_eq_floor p u2 hp1 hp2 (by omega) (by omega)
  refine ⟨ha, hb, ?_⟩
  rw [Int.fdiv_eq_ediv _ hpos, Int.fdiv_eq_ediv _ hpos]
  exact Int.ediv_le_ediv (by omega) h12

/-! ## The claims -/

/-- C1: for every generator with a period of at least 1 and every non-negative timestamp, the
    byte string that Generate digests is the decimal text of the time-step counter (the
    quotient unixSeconds / int64(period) it computes), directly followed by the secret,
    directly followed by the pin, and nothing else; for the secret testsecret, the pin 1234,
    the period 10 and the timestamp 1625097600 it is 162509760testsecret1234. -/
theorem C1_hash_input_layout (m : MOTP) (unixSeconds : Int)
    (hp1 : 1 ≤ m.period) (hp2 : m.period < 2 ^ 64)
    (h0 : 0 ≤ unixSeconds) (h63 : unixSeconds < 2 ^ 63) :
    hashInput m unixSeconds =
        .ok (decimalText (Int.tdiv unixSeconds (int64OfUint m.period)) ++ m.secret ++ m.pin) ∧
      Generate m unixSeconds =
        (sliceTo (hexEncodeToString (md5Sum
          (decimalText (Int.tdiv unixSeconds (int64OfUint m.period)) ++ m.secret ++ m.pin)))
          m.digits >>= fun code => pure (code, none)) ∧
      (∀ d : Nat, hashInput ⟨str "testsecret", str "1234", 10, d⟩ 1625097600 =
        .ok (str "162509760testsecret1234")) := by
  have hne : int64OfUint m.period ≠ 0 := int64OfUint_ne_zero _ hp1 hp2
  have hb := tdiv_bounds unixSeconds (int64OfUint m.period) h0
  have hw : wrapInt64 (Int.tdiv unixSeconds (int64OfUint m.period)) =
      Int.tdiv unixSeconds (int64OfUint m.period) :=
    wrapInt64_of_range _ (by omega) (by omega)
  refine ⟨?_, ?_, ?_⟩
  · rw [hashInput_eq m unixSeconds hne, hw, formatInt_eq_decimalText]
  · rw [Generate_nonneg m unixSeconds h0 hne, hw, formatInt_eq_decimalText]
  · intro d
    have hk : formatInt (wrapInt64 (Int.tdiv 1625097600 (int64OfUint 10))) ++ str "testsecret"
        ++ str "1234" = str "162509760testsecret1234" := by decide!
    have h10 : int64OfUint (MOTP.mk (str "testsecret") (str "1234") 10 d).period ≠ 0 :=
      int64OfUint_ne_zero 10 (by decide) (by decide)
    rw [hashInput_eq _ _ h10]
    exact congrArg Except.ok hk

/-- Witness of C1: the test generator of the repository at the timestamp 1625097600. -/
theorem C1_hash_input_layout_witness :
    hashInput ⟨str "testsecret", str "1234", 10, 6⟩ 1625097600 =
        .ok (decimalText (Int.tdiv 1625097600 (int64OfUint 10)) ++ str "testsecret"
          ++ str "1234") ∧
      Generate ⟨str "testsecret", str "1234", 10, 6⟩ 1625097600 =
        (sliceTo (hexEncodeToString (md5Sum
          (decimalText (Int.tdiv 1625097600 (int64OfUint 10)) ++ str "testsecret"
            ++ str "1234")))
          6 >>= fun code => pure (code, none)) ∧
      (∀ d : Nat, hashInput ⟨str "testsecret", str "1234", 10, d⟩ 1625097600 =
        .ok (str "162509760testsecret1234")) :=
  C1_hash_input_layout ⟨str "testsecret", str "1234", 10, 6⟩ 1625097600
    (by decide) (by decide) (by decide) (by decide)

/-- C2: evaluation at the period 18446744073709551615, which WithPeriod accepts: its
    conversion to int64 is -1, so for the timestamp 1 Generate computes the counter -1 and
    digests the text -1sp, although floor(1 / period) is 0. -/
theorem C2_counter_at_max_uint :
    New (str "s") (str "p") [WithPeriod 18446744073709551615] =
        (some ⟨str "s", str "p", 18446744073709551615, 6⟩, none) ∧
      int64OfUint 18446744073709551615 = -1 ∧
      int64Div 1 (int64OfUint 18446744073709551615) = .ok (-1) ∧
      Int.fdiv 1 18446744073709551615 = 0 ∧
      hashInput ⟨str "s", str "p", 18446744073709551615, 6⟩ 1 = .ok (str "-1sp") := by
  decide!

/-- C3: for every generator New returns from options built by WithPeriod and WithDigits and
    every non-negative timestamp, Generate succeeds, without error, and the code it returns
    has exactly digits characters. -/
theorem C3_code_length (secret pin : GoString) (args : List OptionArg) (m : MOTP)
    (unixSeconds : Int) (hu : ∀ a ∈ args, a.isUint)
    (hN : New secret pin (args.map OptionArg.build) = (some m, none))
    (h0 : 0 ≤ unixSeconds) :
    ∃ code, Generate m unixSeconds = .ok (code, none) ∧ code.length = m.digits := by
  obtain ⟨_, _, hp1, hp2, _, hd2⟩ := New_valid secret pin args m hu hN
  refine ⟨_, Generate_ok m unixSeconds h0 (int64OfUint_ne_zero _ hp1 hp2) hd2, ?_⟩
  rw [List.length_take, hexDigest_length]
  omega

/-- Witness of C3: the generator of TestGenerateOTP at its timestamp. -/
theorem C3_code_length_witness :
    ∃ code, Generate ⟨str "testsecret", str "1234", 10, 6⟩ 1625097600 = .ok (code, none) ∧
      code.length = 6 :=
  C3_code_length (str "testsecret") (str "1234") [.period 10, .digits 6]
    ⟨str "testsecret", str "1234", 10, 6⟩ 1625097600 (by decide) (by decide) (by decide)

/-- C4: evaluation at the period 18446744073709551615, which New accepts: the timestamps 1
    and 2 have the same floor(t / period), namely 0, yet Generate returns the code 088a9b
    for the first and 15a056 for the second. -/
theorem C4_same_step_different_codes :
    New (str "s") (str "p") [WithPeriod 18446744073709551615] =
        (some ⟨str "s", str "p", 18446744073709551615, 6⟩, none) ∧
      Int.fdiv 1 18446744073709551615 = Int.fdiv 2 18446744073709551615 ∧
      Generate ⟨str "s", str "p", 18446744073709551615, 6⟩ 1 = .ok (str "088a9b", none) ∧
      Generate ⟨str "s", str "p", 18446744073709551615, 6⟩ 2 = .ok (str "15a056", none) := by
  decide!

/-- C5: for every generator New returns, Generate returns an error exactly when the timestamp
    is negative; whenever it returns an error the code is the empty string; and for a
    non-negative timestamp the hash input exists and writing it to the MD5 hash reports no
    error. -/
theorem C5_error_iff_negative (secret pin : GoString) (args : List OptionArg) (m : MOTP)
    (unixSeconds : Int) (hu : ∀ a ∈ args, a.isUint)
    (hN : New secret pin (args.map OptionArg.build) = (some m, none)) :
    ∃ code err, Generate m unixSeconds = .ok (code, err) ∧
      (err.isSome ↔ unixSeconds < 0) ∧ (err.isSome → code = []) ∧
      (0 ≤ unixSeconds →
        ∃ x, hashInput m unixSeconds = .ok x ∧ (md5New.Write x).2.2 = none) := by
  obtain ⟨_, _, hp1, hp2, _, hd2⟩ := New_valid secret pin args m hu hN
  have hne : int64OfUint m.period ≠ 0 := int64OfUint_ne_zero _ hp1 hp2
  by_cases hneg : unixSeconds < 0
  · refine ⟨[], some (errorsNew "unixSeconds must be non-negative"),
      Generate_neg m unixSeconds hneg, ?_, fun _ => rfl, fun h => ?_⟩
    · simp [hneg]
    · omega
  · refine ⟨_, none, Generate_ok m unixSeconds (by omega) hne hd2, ?_, ?_, fun _ => ?_⟩
    · simp [hneg]
    · intro h
      simp at h
    · exact ⟨_, hashInput_eq m unixSeconds hne, rfl⟩

/-- Witness of C5: the default generator of TestGenerateOTPWithNegativeUnixSeconds at -1. -/
theorem C5_error_iff_negative_witness :
    ∃ code err, Generate ⟨str "testsecret", str "1234", 10, 6⟩ (-1) = .ok (code, err) ∧
      (err.isSome ↔ (-1 : Int) < 0) ∧ (err.isSome → code = []) ∧
      ((0 : Int) ≤ -1 →
        ∃ x, hashInput ⟨str "testsecret", str "1234", 10, 6⟩ (-1) = .ok x ∧
          (md5New.Write x).2.2 = none) :=
  C5_error_iff_negative (str "testsecret") (str "1234") []
    ⟨str "testsecret", str "1234", 10, 6⟩ (-1) (by decide) (by decide)

/-- C6: New with the single option WithDigits(d) returns an error exactly when d < 1 or
    d > 32; on an error the generator returned is nil, otherwise it is the default generator
    with digits d; 0 and 33 are rejected, 1 and 32 accepted. -/
theorem C6_digits_validation (secret pin : GoString) (d : Nat) :
    ((New secret pin [WithDigits d]).2.isSome ↔ (d < 1 ∨ d > 32)) ∧
      ((New secret pin [WithDigits d]).2.isSome → (New secret pin [WithDigits d]).1 = none) ∧
      ((New secret pin [WithDigits d]).2 = none →
        (New secret pin [WithDigits d]).1 = some ⟨secret, pin, 10, d⟩) ∧
      New secret pin [WithDigits 0] =
        (none, some (errorsNew "digits must be in the range 1-32")) ∧
      New secret pin [WithDigits 33] =
        (none, some (errorsNew "digits must be in the range 1-32")) ∧
      New secret pin [WithDigits 1] = (some ⟨secret, pin, 10, 1⟩, none) ∧
      New secret pin [WithDigits 32] = (some ⟨secret, pin, 10, 32⟩, none) := by
  have hbad : (d < 1 ∨ d > 32) → New secret pin [WithDigits d] =
      (none, some (errorsNew "digits must be in the range 1-32")) := by
    intro h
    simp only [New, applyOptions, WithDigits, if_pos h]
  have hgood : ¬ (d < 1 ∨ d > 32) → New secret pin [WithDigits d] =
      (some ⟨secret, pin, 10, d⟩, none) := by
    intro h
    simp only [New, applyOptions, WithDigits, if_neg h]
  refine ⟨?_, ?_, ?_, rfl, rfl, rfl, rfl⟩
  all_goals
    by_cases h : d < 1 ∨ d > 32
    · rw [hbad h]
      simp
      try omega
    · rw [hgood h]
      simp
      try omega

/-- C7: New with the single option WithPeriod(p) returns an error exactly when p = 0; on an
    error the generator returned is nil, otherwise it is the default generator with period
    p; 0 is rejected, 1 and the largest uint are accepted. -/
theorem C7_period_validation (secret pin : GoString) (p : Nat) :
    ((New secret pin [WithPeriod p]).2.isSome ↔ p = 0) ∧
      ((New secret pin [WithPeriod p]).2.isSome → (New secret pin [WithPeriod p]).1 = none) ∧
      ((New secret pin [WithPeriod p]).2 = none →
        (New secret pin [WithPeriod p]).1 = some ⟨secret, pin, p, 6⟩) ∧
      New secret pin [WithPeriod 0] = (none, some (errorsNew "period must be positive")) ∧
      New secret pin [WithPeriod 1] = (some ⟨secret, pin, 1, 6⟩, none) ∧
      New secret pin [WithPeriod 18446744073709551615] =
        (some ⟨secret, pin, 18446744073709551615, 6⟩, none) := by
  have hbad : p = 0 → New secret pin [WithPeriod p] =
      (none, some (errorsNew "period must be positive")) := by
    intro h
    subst h
    rfl
  have hgood : p ≠ 0 → New secret pin [WithPeriod p] = (some ⟨secret, pin, p, 6⟩, none) := by
    intro h
    have h1 : ¬ p < 1 := by omega
    simp only [New, applyOptions, WithPeriod, if_neg h1]
  refine ⟨?_, ?_, ?_, rfl, rfl, rfl⟩
  all_goals
    by_cases h : p = 0
    · rw [hbad h]
      simp [h]
    · rw [hgood h]
      simp [h]

/-- C8: validation does not depend on the order of the options: New fails on a permutation
    of a list of WithPeriod/WithDigits options exactly when it fails on the list, and it
    fails on a list exactly when some option of the list carries an invalid value. -/
theorem C8_order_independent (secret pin : GoString) (args args2 : List OptionArg)
    (hperm : args.Perm args2) :
    ((New secret pin (args2.map OptionArg.build)).2.isSome ↔
        (New secret pin (args.map OptionArg.build)).2.isSome) ∧
      ((New secret pin (args.map OptionArg.build)).2.isSome ↔ ∃ a ∈ args, a.invalid) ∧
      ((New secret pin (args.map OptionArg.build)).2 = none ↔
        (New secret pin (args.map OptionArg.build)).1.isSome) := by
  refine ⟨?_, New_fails_iff secret pin args, ?_⟩
  · rw [New_fails_iff, New_fails_iff]
    constructor
    · rintro ⟨a, ha, hi⟩
      exact ⟨a, hperm.mem_iff.mpr ha, hi⟩
    · rintro ⟨a, ha, hi⟩
      exact ⟨a, hperm.mem_iff.mp ha, hi⟩
  · unfold New
    rcases applyOptions_cases args ⟨secret, pin, 10, 6⟩ with ⟨_, e, he⟩ | ⟨_, m1, hm1, _⟩
    · rw [he]; simp
    · rw [hm1]; simp

/-- Witness of C8: an invalid period in front of, or behind, a valid digits option. -/
theorem C8_order_independent_witness :
    ((New (str "s") (str "p")
          ([OptionArg.digits 6, OptionArg.period 0].map OptionArg.build)).2.isSome ↔
        (New (str "s") (str "p")
          ([OptionArg.period 0, OptionArg.digits 6].map OptionArg.build)).2.isSome) ∧
      ((New (str "s") (str "p")
          ([OptionArg.period 0, OptionArg.digits 6].map OptionArg.build)).2.isSome ↔
        ∃ a ∈ [OptionArg.period 0, OptionArg.digits 6], a.invalid) ∧
      ((New (str "s") (str "p")
          ([OptionArg.period 0, OptionArg.digits 6].map OptionArg.build)).2 = none ↔
        (New (str "s") (str "p")
          ([OptionArg.period 0, OptionArg.digits 6].map OptionArg.build)).1.isSome) :=
  C8_order_independent (str "s") (str "p") [.period 0, .digits 6] [.digits 6, .period 0]
    (List.Perm.swap _ _ _)

/-- C9: for every secret and pin, the empty string included, New without options succeeds
    and returns the generator with that secret and pin unchanged, period 10 and digits 6. -/
theorem C9_defaults (secret pin : GoString) :
    New secret pin [] = (some ⟨secret, pin, 10, 6⟩, none) ∧
      New [] [] [] = (some ⟨[], [], 10, 6⟩, none) ∧
      New [] pin [] = (some ⟨[], pin, 10, 6⟩, none) ∧
      New secret [] [] = (some ⟨secret, [], 10, 6⟩, none) :=
  ⟨rfl, rfl, rfl, rfl⟩

/-- C10: every generator New returns from WithPeriod/WithDigits options has period at least
    1 and digits between 1 and 32; so int64(period) is not zero, digits does not exceed the
    length 32 of the hexadecimal digest, and for every timestamp Generate returns a code
    without error or the error for a negative timestamp, never a panic. -/
theorem C10_no_panic (secret pin : GoString) (args : List OptionArg) (m : MOTP)
    (hu : ∀ a ∈ args, a.isUint)
    (hN : New secret pin (args.map OptionArg.build) = (some m, none)) :
    1 ≤ m.period ∧ 1 ≤ m.digits ∧ m.digits ≤ 32 ∧ int64OfUint m.period ≠ 0 ∧
      (∀ data : GoString, (hexEncodeToString (md5Sum data)).length = 32 ∧
        m.digits ≤ (hexEncodeToString (md5Sum data)).length) ∧
      (∀ unixSeconds : Int,
        (∃ code, 0 ≤ unixSeconds ∧ Generate m unixSeconds = .ok (code, none)) ∨
        (unixSeconds < 0 ∧ Generate m unixSeconds =
          .ok ([], some (errorsNew "unixSeconds must be non-negative")))) := by
  obtain ⟨_, _, hp1, hp2, hd1, hd2⟩ := New_valid secret pin args m hu hN
  have hne : int64OfUint m.period ≠ 0 := int64OfUint_ne_zero _ hp1 hp2
  refine ⟨hp1, hd1, hd2, hne, fun data => ?_, fun unixSeconds => ?_⟩
  · rw [hexDigest_length]
    exact ⟨rfl, hd2⟩
  · by_cases hneg : unixSeconds < 0
    · exact Or.inr ⟨hneg, Generate_neg m unixSeconds hneg⟩
    · exact Or.inl ⟨_, by omega, Generate_ok m unixSeconds (by omega) hne hd2⟩

/-- Witness of C10: the generator with period 30 and digits 8 of the repository tests. -/
theorem C10_no_panic_witness :
    1 ≤ 30 ∧ 1 ≤ 8 ∧ 8 ≤ 32 ∧ int64OfUint 30 ≠ 0 ∧
      (∀ data : GoString, (hexEncodeToString (md5Sum data)).length = 32 ∧
        8 ≤ (hexEncodeToString (md5Sum data)).length) ∧
      (∀ unixSeconds : Int,
        (∃ code, 0 ≤ unixSeconds ∧
          Generate ⟨str "testsecret", str "1234", 30, 8⟩ unixSeconds = .ok (code, none)) ∨
        (unixSeconds < 0 ∧ Generate ⟨str "testsecret", str "1234", 30, 8⟩ unixSeconds =
          .ok ([], some (errorsNew "unixSeconds must be non-negative")))) :=
  C10_no_panic (str "testsecret") (str "1234") [.period 30, .digits 8]
    ⟨str "testsecret", str "1234", 30, 8⟩ (by decide) (by decide)

/-- C11: changing exactly one of the counter (non-negative), the secret or the pin, the other
    two fixed, changes the hash input that Generate digests: the map from (counter, secret,
    pin) to the decimal text of the counter followed by secret and pin is injective in each
    argument separately; so two such inputs with the same digest are an MD5 collision. -/
theorem C11_hash_input_injective (c1 c2 : Nat) (s1 s2 p1 p2 : GoString) :
    (Sprintf_d_s_s c1 s1 p1 = Sprintf_d_s_s c1 s1 p2 ↔ p1 = p2) ∧
      (Sprintf_d_s_s c1 s1 p1 = Sprintf_d_s_s c1 s2 p1 ↔ s1 = s2) ∧
      (Sprintf_d_s_s c1 s1 p1 = Sprintf_d_s_s c2 s1 p1 ↔ c1 = c2) ∧
      (∀ (per d : Nat) (u : Int), int64OfUint per ≠ 0 →
        (hashInput ⟨s1, p1, per, d⟩ u = hashInput ⟨s1, p2, per, d⟩ u ↔ p1 = p2) ∧
        (hashInput ⟨s1, p1, per, d⟩ u = hashInput ⟨s2, p1, per, d⟩ u ↔ s1 = s2)) ∧
      ((p1 ≠ p2 ∧ md5Sum (Sprintf_d_s_s c1 s1 p1) = md5Sum (Sprintf_d_s_s c1 s1 p2)) ∨
        (s1 ≠ s2 ∧ md5Sum (Sprintf_d_s_s c1 s1 p1) = md5Sum (Sprintf_d_s_s c1 s2 p1)) ∨
        (c1 ≠ c2 ∧ md5Sum (Sprintf_d_s_s c1 s1 p1) = md5Sum (Sprintf_d_s_s c2 s1 p1)) →
        ∃ x y : GoString, x ≠ y ∧ md5Sum x = md5Sum y) := by
  refine ⟨Sprintf_pin_inj _ _ _ _, Sprintf_secret_inj _ _ _ _, Sprintf_counter_inj _ _ _ _,
    ?_, ?_⟩
  · intro per d u hne
    have e1 := hashInput_eq ⟨s1, p1, per, d⟩ u hne
    have e2 := hashInput_eq ⟨s1, p2, per, d⟩ u hne
    have e3 := hashInput_eq ⟨s2, p1, per, d⟩ u hne
    rw [e1, e2, e3]
    constructor
    · constructor
      · intro h
        exact (Sprintf_pin_inj _ s1 p1 p2).mp (Except.ok.inj h)
      · intro h
        rw [h]
    · constructor
      · intro h
        exact (Sprintf_secret_inj _ s1 s2 p1).mp (Except.ok.inj h)
      · intro h
        rw [h]
  · rintro (⟨hne, hcol⟩ | ⟨hne, hcol⟩ | ⟨hne, hcol⟩)
    · exact ⟨_, _, fun h => hne ((Sprintf_pin_inj _ _ _ _).mp h), hcol⟩
    · exact ⟨_, _, fun h => hne ((Sprintf_secret_inj _ _ _ _).mp h), hcol⟩
    · exact ⟨_, _, fun h => hne ((Sprintf_counter_inj _ _ _ _).mp h), hcol⟩

/-- C12: Generate is a function of the generator and the timestamp alone: generators New
    returns for the same secret, pin and options give the same code and error at the same
    timestamp, and a call leaves secret, pin, period and digits of the receiver as they
    were, so that a repeated call returns the identical results. -/
theorem C12_deterministic (secret pin : GoString) (options : List MOTPOption)
    (m1 m2 : MOTP) (unixSeconds : Int)
    (h1 : New secret pin options = (some m1, none))
    (h2 : New secret pin options = (some m2, none)) :
    Generate m1 unixSeconds = Generate m2 unixSeconds ∧
      GenerateOnReceiver m1 unixSeconds = (Generate m1 unixSeconds >>= fun r => pure (r, m1)) ∧
      (∀ r after, GenerateOnReceiver m1 unixSeconds = .ok (r, after) →
        after = m1 ∧ GenerateOnReceiver after unixSeconds = .ok (r, after)) := by
  have hm : m1 = m2 := by
    rw [h1] at h2
    simpa using h2
  subst hm
  refine ⟨rfl, GenerateOnReceiver_eq m1 unixSeconds, ?_⟩
  intro r after hrun
  have hrun2 := hrun
  rw [GenerateOnReceiver_eq] at hrun2
  cases hg : Generate m1 unixSeconds with
  | error e =>
    rw [hg] at hrun2
    cases hrun2
  | ok r0 =>
    rw [hg] at hrun2
    have hpair : (r0, m1) = (r, after) := Except.ok.inj hrun2
    have ha : after = m1 := (congrArg Prod.snd hpair).symm
    subst ha
    exact ⟨rfl, hrun⟩

/-- Witness of C12: the default generator of the repository tests at 1625097600. -/
theorem C12_deterministic_witness :
    Generate ⟨str "testsecret", str "1234", 10, 6⟩ 1625097600 =
        Generate ⟨str "testsecret", str "1234", 10, 6⟩ 1625097600 ∧
      GenerateOnReceiver ⟨str "testsecret", str "1234", 10, 6⟩ 1625097600 =
        (Generate ⟨str "testsecret", str "1234", 10, 6⟩ 1625097600 >>= fun r =>
          pure (r, ⟨str "testsecret", str "1234", 10, 6⟩)) ∧
      (∀ r after,
        GenerateOnReceiver ⟨str "testsecret", str "1234", 10, 6⟩ 1625097600 = .ok (r, after) →
        after = ⟨str "testsecret", str "1234", 10, 6⟩ ∧
          GenerateOnReceiver after 1625097600 = .ok (r, after)) :=
  C12_deterministic (str "testsecret") (str "1234") []
    ⟨str "testsecret", str "1234", 10, 6⟩ ⟨str "testsecret", str "1234", 10, 6⟩ 1625097600
    rfl rfl

/-- C13: with the clock reading as input, GenerateCurrent returns exactly what Generate
    returns at that reading, for every generator and reading; hence for a generator New
    returns and a non-negative reading it succeeds with a code of length digits. -/
theorem C13_generate_current (secret pin : GoString) (args : List OptionArg) (m : MOTP)
    (t : Int) (hu : ∀ a ∈ args, a.isUint)
    (hN : New secret pin (args.map OptionArg.build) = (some m, none)) (h0 : 0 ≤ t) :
    (∀ (m0 : MOTP) (t0 : Int), GenerateCurrent m0 t0 = Generate m0 t0) ∧
      (∀ m0 : MOTP, GenerateCurrent m0 (-1) =
        .ok ([], some (errorsNew "unixSeconds must be non-negative"))) ∧
      ∃ code, GenerateCurrent m t = .ok (code, none) ∧ code.length = m.digits := by
  obtain ⟨_, _, hp1, hp2, _, hd2⟩ := New_valid secret pin args m hu hN
  refine ⟨fun _ _ => rfl, fun m0 => Generate_neg m0 (-1) (by decide), ?_⟩
  refine ⟨_, Generate_ok m t h0 (int64OfUint_ne_zero _ hp1 hp2) hd2, ?_⟩
  rw [List.length_take, hexDigest_length]
  omega

/-- Witness of C13: the default generator of TestGenerateCurrentOTP, clock at 1625097600. -/
theorem C13_generate_current_witness :
    (∀ (m0 : MOTP) (t0 : Int), GenerateCurrent m0 t0 = Generate m0 t0) ∧
      (∀ m0 : MOTP, GenerateCurrent m0 (-1) =
        .ok ([], some (errorsNew "unixSeconds must be non-negative"))) ∧
      ∃ code, GenerateCurrent ⟨str "testsecret", str "1234", 10, 6⟩ 1625097600 =
        .ok (code, none) ∧ code.length = 6 :=
  C13_generate_current (str "testsecret") (str "1234") []
    ⟨str "testsecret", str "1234", 10, 6⟩ 1625097600 (by decide) (by decide) (by decide)

/-- C14: for every generator New returns and every non-negative timestamp, the code Generate
    returns is the first digits characters of the 32-character hexadecimal text of the
    16-byte MD5 digest of the hash input, and each of its characters is one of 0-9, a-f. -/
theorem C14_code_is_hex_digest_head (secret pin : GoString) (args : List OptionArg) (m : MOTP)
    (unixSeconds : Int) (hu : ∀ a ∈ args, a.isUint)
    (hN : New secret pin (args.map OptionArg.build) = (some m, none))
    (h0 : 0 ≤ unixSeconds) :
    ∃ x code, hashInput m unixSeconds = .ok x ∧ Generate m unixSeconds = .ok (code, none) ∧
      (md5Sum x).length = 16 ∧ (hexEncodeToString (md5Sum x)).length = 32 ∧
      code = (hexEncodeToString (md5Sum x)).take m.digits ∧
      (∃ rest, code ++ rest = hexEncodeToString (md5Sum x)) ∧
      code.length = m.digits ∧ ∀ c ∈ code, isLowerHexDigit c := by
  obtain ⟨_, _, hp1, hp2, _, hd2⟩ := New_valid secret pin args m hu hN
  have hne : int64OfUint m.period ≠ 0 := int64OfUint_ne_zero _ hp1 hp2
  refine ⟨_, _, hashInput_eq m unixSeconds hne, Generate_ok m unixSeconds h0 hne hd2,
    md5Sum_length _, hexDigest_length _, rfl, ⟨_, List.take_append_drop _ _⟩, ?_, ?_⟩
  · rw [List.length_take, hexDigest_length]
    omega
  · intro c hc
    exact hexEncodeToString_lower _ c (List.mem_of_mem_take hc)

/-- Witness of C14: the generator of TestGenerateOTP at its timestamp. -/
theorem C14_code_is_hex_digest_head_witness :
    ∃ x code, hashInput ⟨str "testsecret", str "1234", 10, 6⟩ 1625097600 = .ok x ∧
      Generate ⟨str "testsecret", str "1234", 10, 6⟩ 1625097600 = .ok (code, none) ∧
      (md5Sum x).length = 16 ∧ (hexEncodeToString (md5Sum x)).length = 32 ∧
      code = (hexEncodeToString (md5Sum x)).take 6 ∧
      (∃ rest, code ++ rest = hexEncodeToString (md5Sum x)) ∧
      code.length = 6 ∧ ∀ c ∈ code, isLowerHexDigit c :=
  C14_code_is_hex_digest_head (str "testsecret") (str "1234") [.period 10, .digits 6]
    ⟨str "testsecret", str "1234", 10, 6⟩ 1625097600 (by decide) (by decide) (by decide)

/-- C15: for every period of at least 1 and every non-negative timestamp with
    unixSeconds + period at most the largest int64, the counter Generate computes for
    unixSeconds + period is one more than the counter for unixSeconds, and the two hash
    inputs differ; and for such a period the counter does not decrease when the timestamp
    grows. -/
theorem C15_counter_step (m : MOTP) (unixSeconds : Int) (hp1 : 1 ≤ m.period)
    (h0 : 0 ≤ unixSeconds) (hmax : unixSeconds + m.period ≤ 2 ^ 63 - 1) :
    (∃ c : Int, 0 ≤ c ∧ int64Div unixSeconds (int64OfUint m.period) = .ok c ∧
      int64Div (unixSeconds + m.period) (int64OfUint m.period) = .ok (c + 1)) ∧
      hashInput m unixSeconds ≠ hashInput m (unixSeconds + m.period) ∧
      (∀ u1 u2 : Int, 0 ≤ u1 → u1 ≤ u2 → u2 ≤ 2 ^ 63 - 1 →
        ∃ c1 c2 : Int, int64Div u1 (int64OfUint m.period) = .ok c1 ∧
          int64Div u2 (int64OfUint m.period) = .ok c2 ∧ c1 ≤ c2) := by
  have hp2 : m.period < 2 ^ 63 := by omega
  obtain ⟨ha, hb, hc⟩ := counter_step m.period unixSeconds hp1 h0 hmax
  refine ⟨⟨_, hc, ha, hb⟩, ?_, ?_⟩
  · unfold hashInput
    rw [ha, hb]
    intro h
    have h1 : Sprintf_d_s_s (Int.fdiv unixSeconds m.period) m.secret m.pin =
        Sprintf_d_s_s (Int.fdiv unixSeconds m.period + 1) m.secret m.pin := Except.ok.inj h
    obtain ⟨n, hn⟩ := Int.eq_ofNat_of_zero_le hc
    rw [hn] at h1
    have h2 : ((n : Int) + 1) = ((n + 1 : Nat) : Int) := by push_cast; rfl
    rw [h2] at h1
    have := (Sprintf_counter_inj n (n + 1) m.secret m.pin).mp h1
    omega
  · intro u1 u2 h1 h12 h2
    obtain ⟨e1, e2, hle⟩ := counter_mono m.period u1 u2 hp1 hp2 h1 h12 h2
    exact ⟨_, _, e1, e2, hle⟩

/-- Witness of C15: period 10 at the timestamp 1625097600. -/
theorem C15_counter_step_witness :
    (∃ c : Int, 0 ≤ c ∧ int64Div 1625097600 (int64OfUint 10) = .ok c ∧
      int64Div (1625097600 + (10 : Nat)) (int64OfUint 10) = .ok (c + 1)) ∧
      hashInput ⟨str "testsecret", str "1234", 10, 6⟩ 1625097600 ≠
        hashInput ⟨str "testsecret", str "1234", 10, 6⟩ (1625097600 + (10 : Nat)) ∧
      (∀ u1 u2 : Int, 0 ≤ u1 → u1 ≤ u2 → u2 ≤ 2 ^ 63 - 1 →
        ∃ c1 c2 : Int, int64Div u1 (int64OfUint 10) = .ok c1 ∧
          int64Div u2 (int64OfUint 10) = .ok c2 ∧ c1 ≤ c2) :=
  C15_counter_step ⟨str "testsecret", str "1234", 10, 6⟩ 1625097600
    (by decide) (by decide) (by decide)

/-- C16: for every secret, pin and list of valid WithPeriod/WithDigits options, repetitions
    allowed, New succeeds; the period is the argument of the last WithPeriod, or 10 without
    one, the digits the argument of the last WithDigits, or 6 without one; secret and pin
    are as given. New(s, p, WithPeriod(30), WithDigits(8)) has period 30 and digits 8. -/
theorem C16_last_option_wins (secret pin : GoString) (args : List OptionArg)
    (hvalid : ∀ a ∈ args, ¬ a.invalid) :
    New secret pin (args.map OptionArg.build) =
        (some ⟨secret, pin, lastPeriodOr10 args, lastDigitsOr6 args⟩, none) ∧
      New secret pin [WithPeriod 30, WithDigits 8] = (some ⟨secret, pin, 30, 8⟩, none) := by
  refine ⟨?_, rfl⟩
  unfold New lastPeriodOr10 lastDigitsOr6
  exact applyOptions_last args _ hvalid

/-- Witness of C16: a repeated period option; the later one is kept. -/
theorem C16_last_option_wins_witness :
    New (str "s") (str "p")
        ([OptionArg.period 30, OptionArg.digits 8, OptionArg.period 60].map
          OptionArg.build) =
        (some ⟨str "s", str "p", lastPeriodOr10 [.period 30, .digits 8, .period 60],
          lastDigitsOr6 [.period 30, .digits 8, .period 60]⟩, none) ∧
      New (str "s") (str "p") [WithPeriod 30, WithDigits 8] =
        (some ⟨str "s", str "p", 30, 8⟩, none) :=
  C16_last_option_wins (str "s") (str "p") [.period 30, .digits 8, .period 60] (by decide)

/-- C17: Generate depends on secret and pin only through their concatenation: when
    s1 ++ p1 = s2 ++ p2, generators with the same period and digits return the same result
    at every timestamp (secret ab with pin c, and secret a with pin bc); and a secret that
    begins with a digit absorbs a trailing digit of the counter: the distinct triples
    (12, 3x, 1234) and (123, x, 1234) give the same hash input, and the same code. -/
theorem C17_concatenation_only (s1 p1 s2 p2 : GoString) (period digits : Nat)
    (unixSeconds : Int) (h : s1 ++ p1 = s2 ++ p2) :
    Generate ⟨s1, p1, period, digits⟩ unixSeconds =
        Generate ⟨s2, p2, period, digits⟩ unixSeconds ∧
      Generate ⟨str "ab", str "c", period, digits⟩ unixSeconds =
        Generate ⟨str "a", str "bc", period, digits⟩ unixSeconds ∧
      Sprintf_d_s_s 12 (str "3x") (str "1234") = Sprintf_d_s_s 123 (str "x") (str "1234") ∧
      ((12 : Int), str "3x", str "1234") ≠ ((123 : Int), str "x", str "1234") ∧
      hashInput ⟨str "3x", str "1234", 10, 6⟩ 120 = hashInput ⟨str "x", str "1234", 10, 6⟩ 1230 ∧
      Generate ⟨str "3x", str "1234", 10, 6⟩ 120 = Generate ⟨str "x", str "1234", 10, 6⟩ 1230 := by
  refine ⟨Generate_concat s1 p1 s2 p2 period digits unixSeconds h,
    Generate_concat _ _ _ _ period digits unixSeconds (by decide), ?_, ?_, ?_, ?_⟩
  · decide!
  · decide!
  · decide!
  · decide!

/-- Witness of C17: secret ab with pin c against secret a with pin bc. -/
theorem C17_concatenation_only_witness :
    Generate ⟨str "ab", str "c", 10, 6⟩ 1625097600 =
        Generate ⟨str "a", str "bc", 10, 6⟩ 1625097600 ∧
      Generate ⟨str "ab", str "c", 10, 6⟩ 1625097600 =
        Generate ⟨str "a", str "bc", 10, 6⟩ 1625097600 ∧
      Sprintf_d_s_s 12 (str "3x") (str "1234") = Sprintf_d_s_s 123 (str "x") (str "1234") ∧
      ((12 : Int), str "3x", str "1234") ≠ ((123 : Int), str "x", str "1234") ∧
      hashInput ⟨str "3x", str "1234", 10, 6⟩ 120 = hashInput ⟨str "x", str "1234", 10, 6⟩ 1230 ∧
      Generate ⟨str "3x", str "1234", 10, 6⟩ 120 = Generate ⟨str "x", str "1234", 10, 6⟩ 1230 :=
  C17_concatenation_only (str "ab") (str "c") (str "a") (str "bc") 10 6 1625097600 (by decide)

/-- C18: generators that differ only in digits: for a period of at least 1, a non-negative
    timestamp and 1 ≤ d1 ≤ d2 ≤ 32, the code for d1 is the first d1 characters of the code
    for d2, and the code for 32 digits is the whole hexadecimal digest. -/
theorem C18_shorter_code_is_head (secret pin : GoString) (period d1 d2 : Nat)
    (unixSeconds : Int) (hp1 : 1 ≤ period) (hp2 : period < 2 ^ 64) (h0 : 0 ≤ unixSeconds)
    (_hd1 : 1 ≤ d1) (h12 : d1 ≤ d2) (hd2 : d2 ≤ 32) :
    ∃ x c1 c2, hashInput ⟨secret, pin, period, d2⟩ unixSeconds = .ok x ∧
      Generate ⟨secret, pin, period, d1⟩ unixSeconds = .ok (c1, none) ∧
      Generate ⟨secret, pin, period, d2⟩ unixSeconds = .ok (c2, none) ∧
      c1 = c2.take d1 ∧ c1.length = d1 ∧ c2.length = d2 ∧
      Generate ⟨secret, pin, period, 32⟩ unixSeconds =
        .ok (hexEncodeToString (md5Sum x), none) := by
  have hne : int64OfUint period ≠ 0 := int64OfUint_ne_zero _ hp1 hp2
  refine ⟨_, _, _, hashInput_eq ⟨secret, pin, period, d2⟩ unixSeconds hne,
    Generate_ok ⟨secret, pin, period, d1⟩ unixSeconds h0 hne (by show d1 ≤ 32; omega),
    Generate_ok ⟨secret, pin, period, d2⟩ unixSeconds h0 hne hd2, ?_, ?_, ?_, ?_⟩
  · show List.take d1 _ = List.take d1 (List.take d2 _)
    rw [List.take_take, Nat.min_eq_left h12]
  · show (List.take d1 _).length = d1
    rw [List.length_take, hexDigest_length]
    omega
  · show (List.take d2 _).length = d2
    rw [List.length_take, hexDigest_length]
    omega
  · rw [Generate_ok ⟨secret, pin, period, 32⟩ unixSeconds h0 hne (by show 32 ≤ 32; omega)]
    show Except.ok (List.take 32 _, none) = _
    rw [List.take_of_length_le (by rw [hexDigest_length])]

/-- Witness of C18: 6 and 8 digits on the test secret. -/
theorem C18_shorter_code_is_head_witness :
    ∃ x c1 c2, hashInput ⟨str "testsecret", str "1234", 10, 8⟩ 1625097600 = .ok x ∧
      Generate ⟨str "testsecret", str "1234", 10, 6⟩ 1625097600 = .ok (c1, none) ∧
      Generate ⟨str "testsecret", str "1234", 10, 8⟩ 1625097600 = .ok (c2, none) ∧
      c1 = c2.take 6 ∧ c1.length = 6 ∧ c2.length = 8 ∧
      Generate ⟨str "testsecret", str "1234", 10, 32⟩ 1625097600 =
        .ok (hexEncodeToString (md5Sum x), none) :=
  C18_shorter_code_is_head (str "testsecret") (str "1234") 10 6 8 1625097600
    (by decide) (by decide) (by decide) (by decide) (by decide) (by decide)

/-- C19: without New nothing protects Generate: on a generator whose period is 0, such as
    the zero value of MOTP, Generate at a non-negative timestamp panics with an integer
    division by zero, returning neither code nor error; on a generator whose digits
    exceeds 32 the slice bound is outside the 32-character hexadecimal text, and Generate
    panics there when the division succeeds. -/
theorem C19_unchecked_generator (secret pin : GoString) (period digits : Nat)
    (unixSeconds : Int) (h0 : 0 ≤ unixSeconds) :
    Generate ⟨secret, pin, 0, digits⟩ unixSeconds = .error .divideByZero ∧
      Generate ⟨[], [], 0, 0⟩ unixSeconds = .error .divideByZero ∧
      (32 < digits → ∀ data : GoString,
        (hexEncodeToString (md5Sum data)).length = 32 ∧
        sliceTo (hexEncodeToString (md5Sum data)) digits = .error .sliceBoundsOutOfRange) ∧
      (32 < digits → int64OfUint period ≠ 0 →
        Generate ⟨secret, pin, period, digits⟩ unixSeconds = .error .sliceBoundsOutOfRange) := by
  have hz : ∀ (s p : GoString) (d : Nat),
      Generate ⟨s, p, 0, d⟩ unixSeconds = .error .divideByZero := by
    intro s p d
    unfold Generate hashInput
    rw [if_neg (by omega)]
    rfl
  have hs : 32 < digits → ∀ data : GoString,
      sliceTo (hexEncodeToString (md5Sum data)) digits = .error .sliceBoundsOutOfRange := by
    intro hd data
    unfold sliceTo
    rw [hexDigest_length, if_neg (by omega)]
  refine ⟨hz _ _ _, hz _ _ _, fun hd data => ⟨hexDigest_length data, hs hd data⟩, ?_⟩
  intro hd hne
  rw [Generate_nonneg ⟨secret, pin, period, digits⟩ unixSeconds h0 hne]
  show (sliceTo _ digits >>= _) = _
  rw [hs hd]
  rfl

/-- Witness of C19: the zero value at the timestamp 0, and 33 digits with period 10. -/
theorem C19_unchecked_generator_witness :
    Generate ⟨str "s", str "p", 0, 33⟩ 0 = .error .divideByZero ∧
      Generate ⟨[], [], 0, 0⟩ 0 = .error .divideByZero ∧
      (∀ data : GoString,
        (hexEncodeToString (md5Sum data)).length = 32 ∧
        sliceTo (hexEncodeToString (md5Sum data)) 33 = .error .sliceBoundsOutOfRange) ∧
      Generate ⟨str "s", str "p", 10, 33⟩ 0 = .error .sliceBoundsOutOfRange :=
  have h := C19_unchecked_generator (str "s") (str "p") 10 33 0 (by decide)
  ⟨h.1, h.2.1, h.2.2.1 (by decide), h.2.2.2 (by decide) (by decide)⟩

end Motp
